import Mathlib

/-!
Verification development for the `msgraph` HTTP client
(`src/msgraph/client.go`): a shallow embedding of the request executor
(`performRequest`), the pagination walker (`Get`) and the URL builder
(`buildUri`), together with theorems about their behaviour.

Modelling conventions:
* machine integers (`int64`) are modelled as `Int`/`Nat`; the values that
  occur (attempt counters, nanosecond delays) are far below 2^63, so no
  wraparound modelling is needed;
* the network is an explicit environment: `performRequest` receives a
  function from the attempt index to that attempt's outcome, and `Get`
  receives a function from the request URL to the executor's outcome;
* the run is observed through a trace (delays slept, bodies sent, the
  attempt indices at which each retry class fired) carried in the result.
-/

/-- The `Retry-After` response header as seen through `strconv.ParseFloat`:
either the header is absent (`resp.Header.Get` returned `""`), or it is
present but does not parse as a float, or it parses to a numeric value.
The parsed value is modelled as a rational; the header values relevant to
the claims (small decimals such as `2`) are exactly representable as
`float64`, so no rounding is lost. -/
inductive RetryAfterHeader where
  | absent : RetryAfterHeader
  | invalid (s : String) : RetryAfterHeader
  | parsed (q : ℚ) : RetryAfterHeader
deriving Repr, DecidableEq

/-- Modelled from the spec: the response envelope decoded by the external
`odata` package (`odata.OData`), whose source is not part of this
repository.  Per the spec's data model it carries an optional next-page
link, an optional ordered result sequence and an optional structured
error; result items are opaque strings. -/
structure OData where
  nextLink : Option String
  value : Option (List String)
  odataError : Option String
deriving Repr, DecidableEq

/-- Response body bytes as the client observes them through
`json.Unmarshal` / `json.Marshal` of the envelope: `blob s` stands for
bytes that do not decode as an envelope, `envelope o` stands for the
(canonical) JSON serialization of the envelope `o`. -/
inductive BodyBytes where
  | blob (s : String) : BodyBytes
  | envelope (o : OData) : BodyBytes
deriving Repr, DecidableEq

/-- An HTTP response, restricted to the fields `performRequest` and `Get`
inspect: the status code, the `Retry-After` header, the `Content-Type`
header and the body bytes. -/
structure Response where
  statusCode : Nat
  retryAfter : RetryAfterHeader
  contentType : String
  body : BodyBytes
deriving Repr, DecidableEq

/-- The `HttpRequestInput` interface: the three capabilities every verb
input exposes to `performRequest`.  The two predicates are `Option`s,
modelling nil-able Go function values. -/
structure HttpRequestInput where
  consistencyFailureFunc : Option (Response → OData → Bool)
  validStatusCodes : List Nat
  validStatusFunc : Option (Response → OData → Bool)

/-- `RetryOn404ConsistencyFailureFunc` from the source: retries whenever
the response status is 404. -/
def RetryOn404ConsistencyFailureFunc (resp : Response) (_o : OData) : Bool :=
  resp.statusCode == 404

/-- `retryBackoffInitialDelay = 1 * time.Second`, in nanoseconds. -/
def retryBackoffInitialDelay : Int := 1000000000

/-- `retryBackoffDelayCap = 64 * time.Second`, in nanoseconds. -/
def retryBackoffDelayCap : Int := 64000000000

/-- `requestAttemptsForRateLimiting = 10`. -/
def requestAttemptsForRateLimiting : Nat := 10

/-- `requestAttemptsForConsistency = 6`. -/
def requestAttemptsForConsistency : Nat := 6

/-- The rate-limiting status class from `performRequest`:
424 FailedDependency, 429 TooManyRequests, 500 InternalServerError,
502 BadGateway, 503 ServiceUnavailable. -/
def rateLimitingStatuses : List Nat := [424, 429, 500, 502, 503]

/-- `containsStatusCode` from the source: membership of the actual status
in the expected list. -/
def containsStatusCode (expected : List Nat) (actual : Nat) : Bool :=
  expected.any (fun v => actual == v)

/-- The local `backoffPower` closure of `performRequest`:
`if exp <= 1 { return base }; return base * backoffPower(base, exp-1)`.
The exponent is a `Nat` because the caller only ever passes the
`multiplier` counter, which is non-negative. -/
def backoffPower (base : Int) : Nat → Int
  | 0 => base
  | 1 => base
  | n + 2 => base * backoffPower base (n + 1)

/-- Result of evaluating the consistency-failure predicate, with a nil
predicate judging `false` (`f != nil && f(resp, o)`). -/
def consistencyJudges (input : HttpRequestInput) (r : Response) (o : OData) : Bool :=
  match input.consistencyFailureFunc with
  | some f => f r o
  | none => false

/-- Result of evaluating the extra-valid-status predicate, with a nil
predicate judging `false` (`f != nil && f(resp, o)`). -/
def validStatusAccepts (input : HttpRequestInput) (r : Response) (o : OData) : Bool :=
  match input.validStatusFunc with
  | some f => f r o
  | none => false

/-- The honouring condition for `Retry-After`:
`retryAfter != "" && ParseFloat(retryAfter, 64) succeeds && r > 0`. -/
def honorsRetryAfter (r : Response) : Bool :=
  match r.retryAfter with
  | .parsed q => decide (0 < q)
  | _ => false

/-- The server-specified backoff `int64(r * float64(time.Second))`, in
nanoseconds.  The `int64` conversion truncates toward zero; it is only
used where `r > 0`, so truncation coincides with the floor. -/
def retryAfterNanos (r : Response) : Int :=
  match r.retryAfter with
  | .parsed q => Rat.floor (q * (1000000000 : ℚ))
  | _ => 0

/-- The error text of the terminal `unexpected status` error: preferring
the envelope's structured error (`o.Error.String()`) when present and
non-empty, otherwise the raw response body. -/
inductive ErrorText where
  | odataError (s : String) : ErrorText
  | responseBody (b : BodyBytes) : ErrorText
deriving Repr, DecidableEq

/-- The errors `performRequest` can return. -/
inductive RequestError where
  | auth (msg : String) : RequestError
  | transport (msg : String) : RequestError
  | decode (msg : String) : RequestError
  | unexpectedStatus (status : Nat) (t : ErrorText) : RequestError
deriving Repr, DecidableEq

/-- One attempt's outcome as supplied by the environment: the
`c.HttpClient.Do` call fails, or `odata.FromResponse` fails (carrying the
partially-decoded envelope the source would return), or both succeed. -/
inductive AttemptResult where
  | transportFailure (msg : String) : AttemptResult
  | decodeFailure (o : Option OData) (msg : String) : AttemptResult
  | ok (resp : Response) (o : OData) : AttemptResult
deriving Repr, DecidableEq

/-- Choice of the terminal error text, mirroring the `switch` in the
source: the envelope's error when it is present and renders non-empty,
else the response body. -/
def buildErrText (r : Response) (o : OData) : ErrorText :=
  match o.odataError with
  | some s => if s ≠ "" then .odataError s else .responseBody r.body
  | none => .responseBody r.body

/-- The observable outcome of a `performRequest` run: the returned
response/status/envelope/error tuple, plus the trace of the run — the
backoff delays slept (nanoseconds, in order), the request-body bytes
handed to each send, and the attempt indices at which each retry class
fired (`honoredAttempts` records rate-limiting retries whose delay was
overridden by a `Retry-After` header). -/
structure RequestTrace where
  resp : Option Response
  status : Nat
  o : Option OData
  error : Option RequestError
  sleeps : List Int
  sends : List (List Nat)
  consistencyRetryAttempts : List Nat
  rateLimitRetryAttempts : List Nat
  honoredAttempts : List Nat
deriving Repr, DecidableEq

/-- The retry loop of `performRequest` (`for attempts = 0; attempts <
requestAttemptsForRateLimiting; attempts++`).  `fuel` is the number of
loop iterations still allowed (`requestAttemptsForRateLimiting -
attempts`); the remaining arguments are the mutable locals `attempts`,
`backoff`, `multiplier`, `resp`, `o`, `status` at the head of the
iteration.  Each iteration sleeps `backoff` when `attempts > 0`, advances
the default exponential backoff, replays the buffered request body,
consults the environment for the attempt's outcome, and then follows the
source's branch structure verbatim. -/
def performRequestLoop (disableRetries : Bool) (input : HttpRequestInput)
    (env : Nat → AttemptResult) (reqBody : Option (List Nat)) :
    Nat → Nat → Int → Nat → Option Response → Option OData → Nat → RequestTrace
  | 0, _attempts, _backoff, _multiplier, resp, o, status =>
      { resp := resp, status := status, o := o, error := none,
        sleeps := [], sends := [], consistencyRetryAttempts := [],
        rateLimitRetryAttempts := [], honoredAttempts := [] }
  | fuel + 1, attempts, backoff, multiplier, _resp, _o, status =>
      let multiplier1 := multiplier + 1
      let backoff0 := retryBackoffInitialDelay * backoffPower 2 multiplier1
      let backoff1 := if backoff0 > retryBackoffDelayCap then retryBackoffDelayCap else backoff0
      let inner : RequestTrace :=
        match env attempts with
        | .transportFailure msg =>
            { resp := none, status := status, o := none,
              error := some (.transport msg), sleeps := [], sends := [],
              consistencyRetryAttempts := [], rateLimitRetryAttempts := [],
              honoredAttempts := [] }
        | .decodeFailure od msg =>
            { resp := none, status := status, o := od,
              error := some (.decode msg), sleeps := [], sends := [],
              consistencyRetryAttempts := [], rateLimitRetryAttempts := [],
              honoredAttempts := [] }
        | .ok r od =>
            if !disableRetries && consistencyJudges input r od
                && decide (attempts < requestAttemptsForConsistency) then
              let t := performRequestLoop disableRetries input env reqBody
                fuel (attempts + 1) backoff1 multiplier1 (some r) (some od) status
              { t with consistencyRetryAttempts := attempts :: t.consistencyRetryAttempts }
            else
              let status1 := r.statusCode
              if containsStatusCode input.validStatusCodes status1 then
                { resp := some r, status := status1, o := some od, error := none,
                  sleeps := [], sends := [], consistencyRetryAttempts := [],
                  rateLimitRetryAttempts := [], honoredAttempts := [] }
              else if validStatusAccepts input r od then
                { resp := some r, status := status1, o := some od, error := none,
                  sleeps := [], sends := [], consistencyRetryAttempts := [],
                  rateLimitRetryAttempts := [], honoredAttempts := [] }
              else if containsStatusCode rateLimitingStatuses status1 then
                if honorsRetryAfter r then
                  let t := performRequestLoop disableRetries input env reqBody
                    fuel (attempts + 1) (retryAfterNanos r) 0 (some r) (some od) status1
                  { t with rateLimitRetryAttempts := attempts :: t.rateLimitRetryAttempts,
                           honoredAttempts := attempts :: t.honoredAttempts }
                else
                  let t := performRequestLoop disableRetries input env reqBody
                    fuel (attempts + 1) backoff1 multiplier1 (some r) (some od) status1
                  { t with rateLimitRetryAttempts := attempts :: t.rateLimitRetryAttempts }
              else
                { resp := none, status := status1, o := some od,
                  error := some (.unexpectedStatus status1 (buildErrText r od)),
                  sleeps := [], sends := [], consistencyRetryAttempts := [],
                  rateLimitRetryAttempts := [], honoredAttempts := [] }
      { inner with
        sleeps := (if attempts > 0 then [backoff] else []) ++ inner.sleeps,
        sends := reqBody.getD [] :: inner.sends }

/-- `performRequest`: obtain a token from the authorizer when one is
configured (failure is returned immediately), buffer the request body
once, then run the retry loop from `attempts = 0`, `backoff = 0`,
`multiplier = 0`.  Header attachment has no observable effect in the
model and is omitted. -/
def performRequest (disableRetries : Bool) (input : HttpRequestInput)
    (auth : Option (Except String Unit)) (env : Nat → AttemptResult)
    (reqBody : Option (List Nat)) : RequestTrace :=
  match auth with
  | some (.error e) =>
      { resp := none, status := 0, o := none, error := some (.auth e),
        sleeps := [], sends := [], consistencyRetryAttempts := [],
        rateLimitRetryAttempts := [], honoredAttempts := [] }
  | _ =>
      performRequestLoop disableRetries input env reqBody
        requestAttemptsForRateLimiting 0 0 0 none none 0

/-- The default backoff value the loop computes with multiplier `m`:
`1s * 2^m`, capped at 64s (nanoseconds). -/
def cappedExpBackoff (m : Nat) : Int :=
  min (retryBackoffInitialDelay * 2 ^ m) retryBackoffDelayCap

/-- Whether the authorizer collaborator fails to produce a token. -/
def authFails : Option (Except String Unit) → Bool
  | some (.error _) => true
  | _ => false

/-- Whether an attempt's response would satisfy the `Retry-After`
honouring condition, were the rate-limiting branch reached. -/
def attemptHonorable : AttemptResult → Bool
  | .ok r _ => honorsRetryAfter r
  | _ => false

theorem backoffPower_two (m : Nat) : backoffPower 2 (m + 1) = 2 ^ (m + 1) := by
  induction m with
  | zero => rfl
  | succ k ih =>
      rw [show k + 1 + 1 = k + 2 from rfl]
      rw [backoffPower, ih]
      ring

theorem if_gt_eq_min (x c : Int) : (if x > c then c else x) = min x c := by
  split
  · exact (min_eq_right (le_of_lt (by assumption))).symm
  · exact (min_eq_left (le_of_not_lt (by assumption))).symm

theorem backoffStep (m : Nat) :
    (if retryBackoffInitialDelay * backoffPower 2 (m + 1) > retryBackoffDelayCap
     then retryBackoffDelayCap
     else retryBackoffInitialDelay * backoffPower 2 (m + 1)) = cappedExpBackoff (m + 1) := by
  rw [backoffPower_two, if_gt_eq_min]
  rfl

theorem loop_step_transport {dr : Bool} {input : HttpRequestInput}
    {env : Nat → AttemptResult} {reqBody : Option (List Nat)}
    {n a : Nat} {b : Int} {m : Nat} {resp : Option Response} {o : Option OData} {status : Nat}
    {msg : String} (henv : env a = .transportFailure msg) :
    performRequestLoop dr input env reqBody (n + 1) a b m resp o status =
      { resp := none, status := status, o := none, error := some (.transport msg),
        sleeps := if a > 0 then [b] else [], sends := [reqBody.getD []],
        consistencyRetryAttempts := [], rateLimitRetryAttempts := [],
        honoredAttempts := [] } := by
  simp [performRequestLoop, henv]

theorem loop_step_decode {dr : Bool} {input : HttpRequestInput}
    {env : Nat → AttemptResult} {reqBody : Option (List Nat)}
    {n a : Nat} {b : Int} {m : Nat} {resp : Option Response} {o : Option OData} {status : Nat}
    {od : Option OData} {msg : String} (henv : env a = .decodeFailure od msg) :
    performRequestLoop dr input env reqBody (n + 1) a b m resp o status =
      { resp := none, status := status, o := od, error := some (.decode msg),
        sleeps := if a > 0 then [b] else [], sends := [reqBody.getD []],
        consistencyRetryAttempts := [], rateLimitRetryAttempts := [],
        honoredAttempts := [] } := by
  simp [performRequestLoop, henv]

theorem loop_step_consistency {dr : Bool} {input : HttpRequestInput}
    {env : Nat → AttemptResult} {reqBody : Option (List Nat)}
    {n a : Nat} {b : Int} {m : Nat} {resp : Option Response} {o : Option OData} {status : Nat}
    {r : Response} {od : OData} (henv : env a = .ok r od)
    (hc : (!dr && consistencyJudges input r od
            && decide (a < requestAttemptsForConsistency)) = true) :
    performRequestLoop dr input env reqBody (n + 1) a b m resp o status =
      (let t := performRequestLoop dr input env reqBody n (a + 1)
          (cappedExpBackoff (m + 1)) (m + 1) (some r) (some od) status
       { t with consistencyRetryAttempts := a :: t.consistencyRetryAttempts,
                sleeps := (if a > 0 then [b] else []) ++ t.sleeps,
                sends := reqBody.getD [] :: t.sends }) := by
  simp only [performRequestLoop, henv, backoffStep, hc, if_true]

theorem loop_step_validCode {dr : Bool} {input : HttpRequestInput}
    {env : Nat → AttemptResult} {reqBody : Option (List Nat)}
    {n a : Nat} {b : Int} {m : Nat} {resp : Option Response} {o : Option OData} {status : Nat}
    {r : Response} {od : OData} (henv : env a = .ok r od)
    (hc : (!dr && consistencyJudges input r od
            && decide (a < requestAttemptsForConsistency)) = false)
    (hv : containsStatusCode input.validStatusCodes r.statusCode = true) :
    performRequestLoop dr input env reqBody (n + 1) a b m resp o status =
      { resp := some r, status := r.statusCode, o := some od, error := none,
        sleeps := if a > 0 then [b] else [], sends := [reqBody.getD []],
        consistencyRetryAttempts := [], rateLimitRetryAttempts := [],
        honoredAttempts := [] } := by
  simp [performRequestLoop, henv, hc, hv]

theorem loop_step_validFunc {dr : Bool} {input : HttpRequestInput}
    {env : Nat → AttemptResult} {reqBody : Option (List Nat)}
    {n a : Nat} {b : Int} {m : Nat} {resp : Option Response} {o : Option OData} {status : Nat}
    {r : Response} {od : OData} (henv : env a = .ok r od)
    (hc : (!dr && consistencyJudges input r od
            && decide (a < requestAttemptsForConsistency)) = false)
    (hv : containsStatusCode input.validStatusCodes r.statusCode = false)
    (hf : validStatusAccepts input r od = true) :
    performRequestLoop dr input env reqBody (n + 1) a b m resp o status =
      { resp := some r, status := r.statusCode, o := some od, error := none,
        sleeps := if a > 0 then [b] else [], sends := [reqBody.getD []],
        consistencyRetryAttempts := [], rateLimitRetryAttempts := [],
        honoredAttempts := [] } := by
  simp [performRequestLoop, henv, hc, hv, hf]

theorem loop_step_rateLimit_honored {dr : Bool} {input : HttpRequestInput}
    {env : Nat → AttemptResult} {reqBody : Option (List Nat)}
    {n a : Nat} {b : Int} {m : Nat} {resp : Option Response} {o : Option OData} {status : Nat}
    {r : Response} {od : OData} (henv : env a = .ok r od)
    (hc : (!dr && consistencyJudges input r od
            && decide (a < requestAttemptsForConsistency)) = false)
    (hv : containsStatusCode input.validStatusCodes r.statusCode = false)
    (hf : validStatusAccepts input r od = false)
    (hrl : containsStatusCode rateLimitingStatuses r.statusCode = true)
    (hh : honorsRetryAfter r = true) :
    performRequestLoop dr input env reqBody (n + 1) a b m resp o status =
      (let t := performRequestLoop dr input env reqBody n (a + 1)
          (retryAfterNanos r) 0 (some r) (some od) r.statusCode
       { t with rateLimitRetryAttempts := a :: t.rateLimitRetryAttempts,
                honoredAttempts := a :: t.honoredAttempts,
                sleeps := (if a > 0 then [b] else []) ++ t.sleeps,
                sends := reqBody.getD [] :: t.sends }) := by
  simp [performRequestLoop, henv, hc, hv, hf, hrl, hh]

theorem loop_step_rateLimit_plain {dr : Bool} {input : HttpRequestInput}
    {env : Nat → AttemptResult} {reqBody : Option (List Nat)}
    {n a : Nat} {b : Int} {m : Nat} {resp : Option Response} {o : Option OData} {status : Nat}
    {r : Response} {od : OData} (henv : env a = .ok r od)
    (hc : (!dr && consistencyJudges input r od
            && decide (a < requestAttemptsForConsistency)) = false)
    (hv : containsStatusCode input.validStatusCodes r.statusCode = false)
    (hf : validStatusAccepts input r od = false)
    (hrl : containsStatusCode rateLimitingStatuses r.statusCode = true)
    (hh : honorsRetryAfter r = false) :
    performRequestLoop dr input env reqBody (n + 1) a b m resp o status =
      (let t := performRequestLoop dr input env reqBody n (a + 1)
          (cappedExpBackoff (m + 1)) (m + 1) (some r) (some od) r.statusCode
       { t with rateLimitRetryAttempts := a :: t.rateLimitRetryAttempts,
                sleeps := (if a > 0 then [b] else []) ++ t.sleeps,
                sends := reqBody.getD [] :: t.sends }) := by
  simp only [performRequestLoop, henv, backoffStep, hc, hv, hf, hrl, hh,
    Bool.false_eq_true, if_false, if_true]

theorem loop_step_terminal {dr : Bool} {input : HttpRequestInput}
    {env : Nat → AttemptResult} {reqBody : Option (List Nat)}
    {n a : Nat} {b : Int} {m : Nat} {resp : Option Response} {o : Option OData} {status : Nat}
    {r : Response} {od : OData} (henv : env a = .ok r od)
    (hc : (!dr && consistencyJudges input r od
            && decide (a < requestAttemptsForConsistency)) = false)
    (hv : containsStatusCode input.validStatusCodes r.statusCode = false)
    (hf : validStatusAccepts input r od = false)
    (hrl : containsStatusCode rateLimitingStatuses r.statusCode = false) :
    performRequestLoop dr input env reqBody (n + 1) a b m resp o status =
      { resp := none, status := r.statusCode, o := some od,
        error := some (.unexpectedStatus r.statusCode (buildErrText r od)),
        sleeps := if a > 0 then [b] else [], sends := [reqBody.getD []],
        consistencyRetryAttempts := [], rateLimitRetryAttempts := [],
        honoredAttempts := [] } := by
  simp [performRequestLoop, henv, hc, hv, hf, hrl]


theorem sleeps_singleton_aux {a : Nat} {b : Int} {m : Nat} :
    ∀ i, i < (if a > 0 then [b] else ([] : List Int)).length →
      (if a > 0 then [b] else ([] : List Int))[i]? =
        some (if a = 0 then cappedExpBackoff (m + 1 + i)
              else if i = 0 then b else cappedExpBackoff (m + i)) := by
  intro i hi
  by_cases ha : a = 0
  · subst ha
    simp at hi
  · have ha' : a > 0 := Nat.pos_of_ne_zero ha
    rw [if_pos ha'] at hi ⊢
    have hi0 : i = 0 := Nat.lt_one_iff.mp (by simpa using hi)
    subst hi0
    simp [ha]

theorem sleeps_cons_aux {a : Nat} {b : Int} {m : Nat} (t : List Int)
    (ht : ∀ i, i < t.length →
      t[i]? = some (if i = 0 then cappedExpBackoff (m + 1) else cappedExpBackoff (m + 1 + i))) :
    ∀ i, i < ((if a > 0 then [b] else []) ++ t).length →
      ((if a > 0 then [b] else []) ++ t)[i]? =
        some (if a = 0 then cappedExpBackoff (m + 1 + i)
              else if i = 0 then b else cappedExpBackoff (m + i)) := by
  intro i hi
  by_cases ha : a = 0
  · subst ha
    simp only [gt_iff_lt, Nat.lt_irrefl, if_false, List.nil_append] at hi ⊢
    rw [ht i hi]
    rcases i with _ | j
    · simp
    · simp
  · have ha' : a > 0 := Nat.pos_of_ne_zero ha
    rw [if_pos ha'] at hi ⊢
    rw [List.singleton_append] at hi ⊢
    rcases i with _ | j
    · simp [ha]
    · rw [List.getElem?_cons_succ]
      have hj : j < t.length := by simpa using Nat.lt_of_succ_lt_succ (by simpa using hi)
      rw [ht j hj]
      rw [if_neg ha, if_neg (Nat.succ_ne_zero _)]
      rcases j with _ | k
      · simp
      · rw [if_neg (Nat.succ_ne_zero _)]
        congr 2
        omega

theorem loop_sleeps_of_no_honor (dr : Bool) (input : HttpRequestInput)
    (env : Nat → AttemptResult) (reqBody : Option (List Nat)) :
    ∀ (n a : Nat) (b : Int) (m : Nat) (resp : Option Response) (o : Option OData) (status : Nat),
      (performRequestLoop dr input env reqBody n a b m resp o status).honoredAttempts = [] →
      ∀ i, i < (performRequestLoop dr input env reqBody n a b m resp o status).sleeps.length →
        (performRequestLoop dr input env reqBody n a b m resp o status).sleeps[i]? =
          some (if a = 0 then cappedExpBackoff (m + 1 + i)
                else if i = 0 then b else cappedExpBackoff (m + i)) := by
  intro n
  induction n with
  | zero =>
      intro a b m resp o status _hh i hi
      simp [performRequestLoop] at hi
  | succ n ih =>
      intro a b m resp o status hh i hi
      rcases henv : env a with msg | ⟨od, msg⟩ | ⟨r, od⟩
      · rw [loop_step_transport henv] at hi ⊢
        exact sleeps_singleton_aux i hi
      · rw [loop_step_decode henv] at hi ⊢
        exact sleeps_singleton_aux i hi
      · by_cases hc : (!dr && consistencyJudges input r od
            && decide (a < requestAttemptsForConsistency)) = true
        · rw [loop_step_consistency henv hc] at hh hi ⊢
          simp only at hh hi ⊢
          have IH := ih (a + 1) (cappedExpBackoff (m + 1)) (m + 1) (some r) (some od) status hh
          refine sleeps_cons_aux _ (fun j hj => ?_) i hi
          rw [IH j hj]
          simp [Nat.succ_ne_zero]
        · have hc' : (!dr && consistencyJudges input r od
              && decide (a < requestAttemptsForConsistency)) = false := by
            revert hc
            cases (!dr && consistencyJudges input r od
              && decide (a < requestAttemptsForConsistency)) <;> simp
          by_cases hv : containsStatusCode input.validStatusCodes r.statusCode = true
          · rw [loop_step_validCode henv hc' hv] at hi ⊢
            exact sleeps_singleton_aux i hi
          · have hv' : containsStatusCode input.validStatusCodes r.statusCode = false := by
              revert hv
              cases containsStatusCode input.validStatusCodes r.statusCode <;> simp
            by_cases hf : validStatusAccepts input r od = true
            · rw [loop_step_validFunc henv hc' hv' hf] at hi ⊢
              exact sleeps_singleton_aux i hi
            · have hf' : validStatusAccepts input r od = false := by
                revert hf
                cases validStatusAccepts input r od <;> simp
              by_cases hrl : containsStatusCode rateLimitingStatuses r.statusCode = true
              · by_cases hhon : honorsRetryAfter r = true
                · rw [loop_step_rateLimit_honored henv hc' hv' hf' hrl hhon] at hh
                  simp at hh
                · have hhon' : honorsRetryAfter r = false := by
                    revert hhon
                    cases honorsRetryAfter r <;> simp
                  rw [loop_step_rateLimit_plain henv hc' hv' hf' hrl hhon'] at hh hi ⊢
                  simp only at hh hi ⊢
                  have IH := ih (a + 1) (cappedExpBackoff (m + 1)) (m + 1) (some r) (some od)
                    r.statusCode hh
                  refine sleeps_cons_aux _ (fun j hj => ?_) i hi
                  rw [IH j hj]
                  simp [Nat.succ_ne_zero]
              · have hrl' : containsStatusCode rateLimitingStatuses r.statusCode = false := by
                  revert hrl
                  cases containsStatusCode rateLimitingStatuses r.statusCode <;> simp
                rw [loop_step_terminal henv hc' hv' hf' hrl'] at hi ⊢
                exact sleeps_singleton_aux i hi

theorem performRequest_eq_loop {dr : Bool} {input : HttpRequestInput}
    {auth : Option (Except String Unit)} {env : Nat → AttemptResult}
    {reqBody : Option (List Nat)} (h : authFails auth = false) :
    performRequest dr input auth env reqBody =
      performRequestLoop dr input env reqBody requestAttemptsForRateLimiting 0 0 0 none none 0 := by
  rcases auth with _ | x
  · rfl
  · rcases x with e | u
    · simp [authFails] at h
    · rfl

theorem performRequest_authFailure {dr : Bool} {input : HttpRequestInput}
    {env : Nat → AttemptResult} {reqBody : Option (List Nat)} {e : String} :
    performRequest dr input (some (.error e)) env reqBody =
      { resp := none, status := 0, o := none, error := some (.auth e),
        sleeps := [], sends := [], consistencyRetryAttempts := [],
        rateLimitRetryAttempts := [], honoredAttempts := [] } := rfl

/-- A request input declaring only status 200 valid, with no predicates. -/
def plainInput : HttpRequestInput :=
  { consistencyFailureFunc := none, validStatusCodes := [200], validStatusFunc := none }

/-- A 429 response with no Retry-After header. -/
def resp429 : Response :=
  { statusCode := 429, retryAfter := .absent, contentType := "application/json",
    body := .blob "throttled" }

/-- A 404 response. -/
def resp404 : Response :=
  { statusCode := 404, retryAfter := .absent, contentType := "application/json",
    body := .blob "nf" }

/-- An empty envelope. -/
def odEmpty : OData := { nextLink := none, value := none, odataError := none }

/-- An environment in which every attempt is rate limited (429) with no
Retry-After header. -/
def allRateLimitedEnv : Nat → AttemptResult := fun _ => .ok resp429 odEmpty

/-- C1 (as stated): FALSE.  In the all-429 run with no Retry-After
honored, the backoff slept before the first retry is 2s, not
min(1s * 2^0, 64s) = 1s as the claim requires: the loop increments the
multiplier before computing the very first backoff and
`backoffPower 2 1 = 2`. -/
theorem performRequest_C1_counterexample :
    (performRequest false plainInput none allRateLimitedEnv none).honoredAttempts = [] ∧
    (performRequest false plainInput none allRateLimitedEnv none).sleeps[0]? =
      some 2000000000 ∧
    (performRequest false plainInput none allRateLimitedEnv none).sleeps[0]? ≠
      some (min (retryBackoffInitialDelay * 2 ^ 0) retryBackoffDelayCap) := by
  refine ⟨by decide, by decide, by decide⟩

/-- C1 (amended): in every run of `performRequest` in which no
Retry-After header is honored, the backoff delay slept before the k-th
retry (k = 1, 2, ...) is min(1s * 2^k, 64s); that is, the sleeps between
successive attempts are 2s, 4s, 8s, ... capped at 64s. -/
theorem performRequest_C1_backoff_sequence (dr : Bool) (input : HttpRequestInput)
    (auth : Option (Except String Unit)) (env : Nat → AttemptResult)
    (reqBody : Option (List Nat))
    (h : (performRequest dr input auth env reqBody).honoredAttempts = []) :
    ∀ i, i < (performRequest dr input auth env reqBody).sleeps.length →
      (performRequest dr input auth env reqBody).sleeps[i]? =
        some (cappedExpBackoff (i + 1)) := by
  intro i hi
  by_cases hauth : authFails auth = true
  · rcases auth with _ | x
    · simp [authFails] at hauth
    · rcases x with e | u
      · rw [performRequest_authFailure] at hi
        simp at hi
      · simp [authFails] at hauth
  · have hauth' : authFails auth = false := by
      revert hauth
      cases authFails auth <;> simp
    rw [performRequest_eq_loop hauth'] at h hi ⊢
    have := loop_sleeps_of_no_honor dr input env reqBody
      requestAttemptsForRateLimiting 0 0 0 none none 0 h i hi
    rw [this, if_pos rfl]
    have harith : 0 + 1 + i = i + 1 := by omega
    rw [harith]

/-- C1 witness: the amended theorem applied to the all-429 run at
retry index 3 (fourth sleep = 1s * 2^4 = 16s). -/
theorem performRequest_C1_witness :
    (performRequest false plainInput none allRateLimitedEnv none).honoredAttempts = [] ∧
    (performRequest false plainInput none allRateLimitedEnv none).sleeps[3]? =
      some (cappedExpBackoff 4) :=
  ⟨by decide, performRequest_C1_backoff_sequence false plainInput none allRateLimitedEnv none
      (by decide) 3 (by decide)⟩

theorem loop_sends_mem (dr : Bool) (input : HttpRequestInput)
    (env : Nat → AttemptResult) (reqBody : Option (List Nat)) :
    ∀ (n a : Nat) (b : Int) (m : Nat) (resp : Option Response) (o : Option OData) (status : Nat),
      ∀ x ∈ (performRequestLoop dr input env reqBody n a b m resp o status).sends,
        x = reqBody.getD [] := by
  intro n
  induction n with
  | zero =>
      intro a b m resp o status x hx
      simp [performRequestLoop] at hx
  | succ n ih =>
      intro a b m resp o status x hx
      rcases henv : env a with msg | ⟨od, msg⟩ | ⟨r, od⟩
      · rw [loop_step_transport henv] at hx
        simpa using hx
      · rw [loop_step_decode henv] at hx
        simpa using hx
      · by_cases hc : (!dr && consistencyJudges input r od
            && decide (a < requestAttemptsForConsistency)) = true
        · rw [loop_step_consistency henv hc] at hx
          simp only [List.mem_cons] at hx
          rcases hx with rfl | hx'
          · rfl
          · exact ih _ _ _ _ _ _ x hx'
        · have hc' : (!dr && consistencyJudges input r od
              && decide (a < requestAttemptsForConsistency)) = false := by
            revert hc
            cases (!dr && consistencyJudges input r od
              && decide (a < requestAttemptsForConsistency)) <;> simp
          by_cases hv : containsStatusCode input.validStatusCodes r.statusCode = true
          · rw [loop_step_validCode henv hc' hv] at hx
            simpa using hx
          · have hv' : containsStatusCode input.validStatusCodes r.statusCode = false := by
              revert hv
              cases containsStatusCode input.validStatusCodes r.statusCode <;> simp
            by_cases hf : validStatusAccepts input r od = true
            · rw [loop_step_validFunc henv hc' hv' hf] at hx
              simpa using hx
            · have hf' : validStatusAccepts input r od = false := by
                revert hf
                cases validStatusAccepts input r od <;> simp
              by_cases hrl : containsStatusCode rateLimitingStatuses r.statusCode = true
              · by_cases hhon : honorsRetryAfter r = true
                · rw [loop_step_rateLimit_honored henv hc' hv' hf' hrl hhon] at hx
                  simp only [List.mem_cons] at hx
                  rcases hx with rfl | hx'
                  · rfl
                  · exact ih _ _ _ _ _ _ x hx'
                · have hhon' : honorsRetryAfter r = false := by
                    revert hhon
                    cases honorsRetryAfter r <;> simp
                  rw [loop_step_rateLimit_plain henv hc' hv' hf' hrl hhon'] at hx
                  simp only [List.mem_cons] at hx
                  rcases hx with rfl | hx'
                  · rfl
                  · exact ih _ _ _ _ _ _ x hx'
              · have hrl' : containsStatusCode rateLimitingStatuses r.statusCode = false := by
                  revert hrl
                  cases containsStatusCode rateLimitingStatuses r.statusCode <;> simp
                rw [loop_step_terminal henv hc' hv' hf' hrl'] at hx
                simpa using hx

/-- C6: the request body is buffered once, and the body bytes handed to
every send of the retry loop are exactly that buffer (`nil` bodies are
replayed as the empty buffer); in particular the bytes sent on attempt k
equal the bytes sent on attempt 1, for every k. -/
theorem performRequest_C6_body_replayed (dr : Bool) (input : HttpRequestInput)
    (auth : Option (Except String Unit)) (env : Nat → AttemptResult)
    (reqBody : Option (List Nat)) :
    ∀ x ∈ (performRequest dr input auth env reqBody).sends, x = reqBody.getD [] := by
  intro x hx
  by_cases hauth : authFails auth = true
  · rcases auth with _ | y
    · simp [authFails] at hauth
    · rcases y with e | u
      · rw [performRequest_authFailure] at hx
        simp at hx
      · simp [authFails] at hauth
  · have hauth' : authFails auth = false := by
      revert hauth
      cases authFails auth <;> simp
    rw [performRequest_eq_loop hauth'] at hx
    exact loop_sends_mem dr input env reqBody _ _ _ _ _ _ _ x hx

/-- C6 witness: in the all-429 run with body bytes [7, 8], those bytes
are among the sent bodies and the theorem evaluates them back to the
buffered body. -/
theorem performRequest_C6_witness :
    ([7, 8] : List Nat) ∈
      (performRequest false plainInput none allRateLimitedEnv (some [7, 8])).sends ∧
    ([7, 8] : List Nat) = (some ([7, 8] : List Nat)).getD [] :=
  ⟨by decide, performRequest_C6_body_replayed false plainInput none allRateLimitedEnv
      (some [7, 8]) [7, 8] (by decide)⟩

theorem loop_consistency_attempts (dr : Bool) (input : HttpRequestInput)
    (env : Nat → AttemptResult) (reqBody : Option (List Nat)) :
    ∀ (n a : Nat) (b : Int) (m : Nat) (resp : Option Response) (o : Option OData) (status : Nat),
      (∀ k ∈ (performRequestLoop dr input env reqBody n a b m
          resp o status).consistencyRetryAttempts,
          a ≤ k ∧ k < requestAttemptsForConsistency) ∧
      (performRequestLoop dr input env reqBody n a b m
          resp o status).consistencyRetryAttempts.length
        ≤ requestAttemptsForConsistency - a := by
  intro n
  induction n with
  | zero =>
      intro a b m resp o status
      constructor
      · intro k hk
        simp [performRequestLoop] at hk
      · simp [performRequestLoop]
  | succ n ih =>
      intro a b m resp o status
      rcases henv : env a with msg | ⟨od, msg⟩ | ⟨r, od⟩
      · rw [loop_step_transport henv]
        exact ⟨fun k hk => by simp at hk, by simp⟩
      · rw [loop_step_decode henv]
        exact ⟨fun k hk => by simp at hk, by simp⟩
      · by_cases hc : (!dr && consistencyJudges input r od
            && decide (a < requestAttemptsForConsistency)) = true
        · have ha6 : a < requestAttemptsForConsistency := by
            have := (Bool.and_eq_true _ _).mp hc
            exact of_decide_eq_true this.2
          rw [loop_step_consistency henv hc]
          simp only
          have IH := ih (a + 1) (cappedExpBackoff (m + 1)) (m + 1) (some r) (some od) status
          constructor
          · intro k hk
            rcases List.mem_cons.mp hk with rfl | hk'
            · exact ⟨le_refl _, ha6⟩
            · have := IH.1 k hk'
              exact ⟨by omega, this.2⟩
          · simp only [List.length_cons]
            have := IH.2
            omega
        · have hc' : (!dr && consistencyJudges input r od
              && decide (a < requestAttemptsForConsistency)) = false := by
            revert hc
            cases (!dr && consistencyJudges input r od
              && decide (a < requestAttemptsForConsistency)) <;> simp
          by_cases hv : containsStatusCode input.validStatusCodes r.statusCode = true
          · rw [loop_step_validCode henv hc' hv]
            exact ⟨fun k hk => by simp at hk, by simp⟩
          · have hv' : containsStatusCode input.validStatusCodes r.statusCode = false := by
              revert hv
              cases containsStatusCode input.validStatusCodes r.statusCode <;> simp
            by_cases hf : validStatusAccepts input r od = true
            · rw [loop_step_validFunc henv hc' hv' hf]
              exact ⟨fun k hk => by simp at hk, by simp⟩
            · have hf' : validStatusAccepts input r od = false := by
                revert hf
                cases validStatusAccepts input r od <;> simp
              by_cases hrl : containsStatusCode rateLimitingStatuses r.statusCode = true
              · by_cases hhon : honorsRetryAfter r = true
                · rw [loop_step_rateLimit_honored henv hc' hv' hf' hrl hhon]
                  simp only
                  have IH := ih (a + 1) (retryAfterNanos r) 0 (some r) (some od) r.statusCode
                  constructor
                  · intro k hk
                    have := IH.1 k hk
                    exact ⟨by omega, this.2⟩
                  · have := IH.2
                    omega
                · have hhon' : honorsRetryAfter r = false := by
                    revert hhon
                    cases honorsRetryAfter r <;> simp
                  rw [loop_step_rateLimit_plain henv hc' hv' hf' hrl hhon']
                  simp only
                  have IH := ih (a + 1) (cappedExpBackoff (m + 1)) (m + 1) (some r) (some od)
                    r.statusCode
                  constructor
                  · intro k hk
                    have := IH.1 k hk
                    exact ⟨by omega, this.2⟩
                  · have := IH.2
                    omega
              · have hrl' : containsStatusCode rateLimitingStatuses r.statusCode = false := by
                  revert hrl
                  cases containsStatusCode rateLimitingStatuses r.statusCode <;> simp
                rw [loop_step_terminal henv hc' hv' hf' hrl']
                exact ⟨fun k hk => by simp at hk, by simp⟩

/-- A request input retrying on 404 as a consistency failure, accepting
only status 200. -/
def retryInput : HttpRequestInput :=
  { consistencyFailureFunc := some RetryOn404ConsistencyFailureFunc,
    validStatusCodes := [200], validStatusFunc := none }

/-- Six rate-limited attempts, then 404 responses. -/
def sixRateLimitedThen404Env : Nat → AttemptResult := fun k =>
  if k < 6 then .ok resp429 odEmpty else .ok resp404 odEmpty

/-- Every attempt is a 404. -/
def pure404Env : Nat → AttemptResult := fun _ => .ok resp404 odEmpty

/-- C2 (as stated): FALSE.  The consistency-retry cap is checked against
the shared outer attempt counter, not a separate counter.  With the
404-retrying input: when the first six attempts are consumed by
rate-limiting (429) retries, the 404 received on attempt index 6 is NOT
retried — zero consistency retries occur and the call fails terminally
after 7 sends — whereas the very same 404 responses, arriving with no
preceding rate-limiting, are retried six times.  So attempts consumed by
rate-limiting do reduce the consistency retries available. -/
theorem performRequest_C2_counterexample :
    (performRequest false retryInput none sixRateLimitedThen404Env
        none).consistencyRetryAttempts = [] ∧
    (performRequest false retryInput none sixRateLimitedThen404Env none).sends.length = 7 ∧
    (performRequest false retryInput none sixRateLimitedThen404Env none).error =
      some (.unexpectedStatus 404 (.responseBody (.blob "nf"))) ∧
    (performRequest false retryInput none pure404Env none).consistencyRetryAttempts =
      [0, 1, 2, 3, 4, 5] := by
  refine ⟨by decide, by decide, by decide, by decide⟩

/-- C2 (amended): retries triggered by the caller-supplied
consistency-failure predicate are permitted only while the outer attempt
index — shared with rate-limiting retries — is below 6; hence at most 6
consistency retries occur in a call, and attempts consumed by
rate-limiting retries do reduce the consistency retries still
available. -/
theorem performRequest_C2_consistency_budget (dr : Bool) (input : HttpRequestInput)
    (auth : Option (Except String Unit)) (env : Nat → AttemptResult)
    (reqBody : Option (List Nat)) :
    (∀ k ∈ (performRequest dr input auth env reqBody).consistencyRetryAttempts,
        k < requestAttemptsForConsistency) ∧
    (performRequest dr input auth env reqBody).consistencyRetryAttempts.length
      ≤ requestAttemptsForConsistency := by
  by_cases hauth : authFails auth = true
  · rcases auth with _ | y
    · simp [authFails] at hauth
    · rcases y with e | u
      · rw [performRequest_authFailure]
        exact ⟨fun k hk => by simp at hk, by simp⟩
      · simp [authFails] at hauth
  · have hauth' : authFails auth = false := by
      revert hauth
      cases authFails auth <;> simp
    rw [performRequest_eq_loop hauth']
    have := loop_consistency_attempts dr input env reqBody
      requestAttemptsForRateLimiting 0 0 0 none none 0
    exact ⟨fun k hk => (this.1 k hk).2, le_trans this.2 (by omega)⟩

/-- C2 witness: the amended theorem applied to the all-404 run. -/
theorem performRequest_C2_witness :
    (performRequest false retryInput none pure404Env
        none).consistencyRetryAttempts.length ≤ requestAttemptsForConsistency :=
  (performRequest_C2_consistency_budget false retryInput none pure404Env none).2

/-- Whether an attempt's outcome makes the iteration end in the
rate-limiting branch at outer attempt index `k`: the send and decode
succeed, the consistency-retry branch is not taken, the status is neither
declared valid nor accepted by the extra-valid predicate, and the status
is in the rate-limiting class. -/
def endsRateLimited (dr : Bool) (input : HttpRequestInput) (k : Nat) : AttemptResult → Bool
  | .ok r od =>
      !(!dr && consistencyJudges input r od && decide (k < requestAttemptsForConsistency))
        && !(containsStatusCode input.validStatusCodes r.statusCode)
        && !(validStatusAccepts input r od)
        && containsStatusCode rateLimitingStatuses r.statusCode
  | _ => false

/-- The response of a successful attempt outcome. -/
def attemptResp : AttemptResult → Option Response
  | .ok r _ => some r
  | _ => none

/-- The envelope of a successful attempt outcome. -/
def attemptOData : AttemptResult → Option OData
  | .ok _ od => some od
  | _ => none

/-- The status code of a successful attempt outcome. -/
def attemptStatus : AttemptResult → Nat
  | .ok r _ => r.statusCode
  | _ => 0

theorem loop_rateLimited_exhaust (dr : Bool) (input : HttpRequestInput)
    (env : Nat → AttemptResult) (reqBody : Option (List Nat)) :
    ∀ (n a : Nat) (b : Int) (m : Nat) (resp : Option Response) (o : Option OData) (status : Nat),
      a + n = requestAttemptsForRateLimiting → 1 ≤ n →
      (∀ k, a ≤ k → k < requestAttemptsForRateLimiting →
        endsRateLimited dr input k (env k) = true) →
      (performRequestLoop dr input env reqBody n a b m resp o status).error = none ∧
      (performRequestLoop dr input env reqBody n a b m resp o status).resp =
        attemptResp (env 9) ∧
      (performRequestLoop dr input env reqBody n a b m resp o status).o =
        attemptOData (env 9) ∧
      (performRequestLoop dr input env reqBody n a b m resp o status).status =
        attemptStatus (env 9) := by
  intro n
  induction n with
  | zero =>
      intro a b m resp o status _ha hn _hcond
      omega
  | succ n ih =>
      intro a b m resp o status ha _hn hcond
      have hk := hcond a (le_refl a) (by omega)
      rcases henv : env a with msg | ⟨od, msg⟩ | ⟨r, od⟩
      · rw [henv] at hk
        simp [endsRateLimited] at hk
      · rw [henv] at hk
        simp [endsRateLimited] at hk
      · rw [henv] at hk
        simp only [endsRateLimited, Bool.and_eq_true, Bool.not_eq_true'] at hk
        obtain ⟨⟨⟨hc', hv'⟩, hf'⟩, hrl⟩ := hk
        rcases Nat.eq_zero_or_pos n with hn0 | hn1
        · subst hn0
          have ha9 : a = 9 := by
            have : requestAttemptsForRateLimiting = 10 := rfl
            omega
          by_cases hhon : honorsRetryAfter r = true
          · rw [loop_step_rateLimit_honored henv hc' hv' hf' hrl hhon]
            subst ha9
            rw [henv]
            simp [performRequestLoop, attemptResp, attemptOData, attemptStatus]
          · have hhon' : honorsRetryAfter r = false := by
              revert hhon
              cases honorsRetryAfter r <;> simp
            rw [loop_step_rateLimit_plain henv hc' hv' hf' hrl hhon']
            subst ha9
            rw [henv]
            simp [performRequestLoop, attemptResp, attemptOData, attemptStatus]
        · have hcond' : ∀ k, a + 1 ≤ k → k < requestAttemptsForRateLimiting →
              endsRateLimited dr input k (env k) = true :=
            fun k hk1 hk2 => hcond k (by omega) hk2
          by_cases hhon : honorsRetryAfter r = true
          · rw [loop_step_rateLimit_honored henv hc' hv' hf' hrl hhon]
            simp only
            exact ih (a + 1) (retryAfterNanos r) 0 (some r) (some od) r.statusCode
              (by omega) hn1 hcond'
          · have hhon' : honorsRetryAfter r = false := by
              revert hhon
              cases honorsRetryAfter r <;> simp
            rw [loop_step_rateLimit_plain henv hc' hv' hf' hrl hhon']
            simp only
            exact ih (a + 1) (cappedExpBackoff (m + 1)) (m + 1) (some r) (some od) r.statusCode
              (by omega) hn1 hcond'

/-- C3: when every one of the 10 outer attempts ends in the rate-limiting
branch (status in the class 424/429/500/502/503, not valid, not accepted,
no consistency retry taken), the loop exhausts its budget and
`performRequest` returns the last (10th) attempt's response, status and
envelope with a nil error; no separate retries-exhausted error value is
synthesized. -/
theorem performRequest_C3_exhaustion (dr : Bool) (input : HttpRequestInput)
    (auth : Option (Except String Unit)) (env : Nat → AttemptResult)
    (reqBody : Option (List Nat)) (hauth : authFails auth = false)
    (h : ∀ k, k < requestAttemptsForRateLimiting →
      endsRateLimited dr input k (env k) = true) :
    (performRequest dr input auth env reqBody).error = none ∧
    (performRequest dr input auth env reqBody).resp = attemptResp (env 9) ∧
    (performRequest dr input auth env reqBody).o = attemptOData (env 9) ∧
    (performRequest dr input auth env reqBody).status = attemptStatus (env 9) := by
  rw [performRequest_eq_loop hauth]
  exact loop_rateLimited_exhaust dr input env reqBody
    requestAttemptsForRateLimiting 0 0 0 none none 0 rfl (by decide)
    (fun k _ hk2 => h k hk2)

/-- C3 witness: the all-429 run exhausts the budget and returns the last
attempt's 429 response with no error. -/
theorem performRequest_C3_witness :
    (performRequest false plainInput none allRateLimitedEnv none).error = none ∧
    (performRequest false plainInput none allRateLimitedEnv none).resp = some resp429 ∧
    (performRequest false plainInput none allRateLimitedEnv none).status = 429 :=
  ⟨(performRequest_C3_exhaustion false plainInput none allRateLimitedEnv none
      (by decide) (by decide)).1,
   (performRequest_C3_exhaustion false plainInput none allRateLimitedEnv none
      (by decide) (by decide)).2.1,
   (performRequest_C3_exhaustion false plainInput none allRateLimitedEnv none
      (by decide) (by decide)).2.2.2⟩

theorem loop_sleeps_head {dr : Bool} {input : HttpRequestInput}
    {env : Nat → AttemptResult} {reqBody : Option (List Nat)}
    {n a : Nat} {b : Int} {m : Nat} {resp : Option Response} {o : Option OData} {status : Nat}
    (ha : 0 < a) :
    (performRequestLoop dr input env reqBody (n + 1) a b m resp o status).sleeps[0]? =
      some b := by
  simp only [performRequestLoop]
  simp [ha]

theorem loop_retry_attempts_lb (dr : Bool) (input : HttpRequestInput)
    (env : Nat → AttemptResult) (reqBody : Option (List Nat)) :
    ∀ (n a : Nat) (b : Int) (m : Nat) (resp : Option Response) (o : Option OData) (status : Nat),
      (∀ x ∈ (performRequestLoop dr input env reqBody n a b m
          resp o status).rateLimitRetryAttempts, a ≤ x) ∧
      (∀ x ∈ (performRequestLoop dr input env reqBody n a b m
          resp o status).honoredAttempts, a ≤ x) := by
  intro n
  induction n with
  | zero =>
      intro a b m resp o status
      constructor <;> intro x hx <;> simp [performRequestLoop] at hx
  | succ n ih =>
      intro a b m resp o status
      rcases henv : env a with msg | ⟨od, msg⟩ | ⟨r, od⟩
      · rw [loop_step_transport henv]
        constructor <;> intro x hx <;> simp at hx
      · rw [loop_step_decode henv]
        constructor <;> intro x hx <;> simp at hx
      · by_cases hc : (!dr && consistencyJudges input r od
            && decide (a < requestAttemptsForConsistency)) = true
        · rw [loop_step_consistency henv hc]
          simp only
          have IH := ih (a + 1) (cappedExpBackoff (m + 1)) (m + 1) (some r) (some od) status
          exact ⟨fun x hx => by have := IH.1 x hx; omega,
                 fun x hx => by have := IH.2 x hx; omega⟩
        · have hc' : (!dr && consistencyJudges input r od
              && decide (a < requestAttemptsForConsistency)) = false := by
            revert hc
            cases (!dr && consistencyJudges input r od
              && decide (a < requestAttemptsForConsistency)) <;> simp
          by_cases hv : containsStatusCode input.validStatusCodes r.statusCode = true
          · rw [loop_step_validCode henv hc' hv]
            constructor <;> intro x hx <;> simp at hx
          · have hv' : containsStatusCode input.validStatusCodes r.statusCode = false := by
              revert hv
              cases containsStatusCode input.validStatusCodes r.statusCode <;> simp
            by_cases hf : validStatusAccepts input r od = true
            · rw [loop_step_validFunc henv hc' hv' hf]
              constructor <;> intro x hx <;> simp at hx
            · have hf' : validStatusAccepts input r od = false := by
                revert hf
                cases validStatusAccepts input r od <;> simp
              by_cases hrl : containsStatusCode rateLimitingStatuses r.statusCode = true
              · by_cases hhon : honorsRetryAfter r = true
                · rw [loop_step_rateLimit_honored henv hc' hv' hf' hrl hhon]
                  simp only
                  have IH := ih (a + 1) (retryAfterNanos r) 0 (some r) (some od) r.statusCode
                  constructor
                  · intro x hx
                    rcases List.mem_cons.mp hx with rfl | hx'
                    · exact le_refl _
                    · have := IH.1 x hx'
                      omega
                  · intro x hx
                    rcases List.mem_cons.mp hx with rfl | hx'
                    · exact le_refl _
                    · have := IH.2 x hx'
                      omega
                · have hhon' : honorsRetryAfter r = false := by
                    revert hhon
                    cases honorsRetryAfter r <;> simp
                  rw [loop_step_rateLimit_plain henv hc' hv' hf' hrl hhon']
                  simp only
                  have IH := ih (a + 1) (cappedExpBackoff (m + 1)) (m + 1) (some r) (some od)
                    r.statusCode
                  constructor
                  · intro x hx
                    rcases List.mem_cons.mp hx with rfl | hx'
                    · exact le_refl _
                    · have := IH.1 x hx'
                      omega
                  · intro x hx
                    have := IH.2 x hx
                    omega
              · have hrl' : containsStatusCode rateLimitingStatuses r.statusCode = false := by
                  revert hrl
                  cases containsStatusCode rateLimitingStatuses r.statusCode <;> simp
                rw [loop_step_terminal henv hc' hv' hf' hrl']
                constructor <;> intro x hx <;> simp at hx

theorem single_honor_shift_aux {a k : Nat} {b ra : Int} (t : List Int)
    (hak : a + 1 ≤ k)
    (h1 : t[k + 1 - (a + 1)]? = some ra)
    (h2 : ∀ j, k + 1 - (a + 1) < j → j < t.length →
      t[j]? = some (cappedExpBackoff (j - (k + 1 - (a + 1))))) :
    ((if a > 0 then [b] else []) ++ t)[k + 1 - max a 1]? = some ra ∧
    ∀ i, k + 1 - max a 1 < i → i < ((if a > 0 then [b] else []) ++ t).length →
      ((if a > 0 then [b] else []) ++ t)[i]? =
        some (cappedExpBackoff (i - (k + 1 - max a 1))) := by
  by_cases ha : a = 0
  · subst ha
    have hmax : max 0 1 = 1 := max_eq_right (by omega)
    simp only [hmax, gt_iff_lt, Nat.lt_irrefl, if_false, List.nil_append]
    constructor
    · simpa using h1
    · intro i hi hlen
      rw [h2 i (by omega) hlen]
  · have ha' : a > 0 := Nat.pos_of_ne_zero ha
    rw [max_eq_left (by omega : 1 ≤ a), if_pos ha', List.singleton_append]
    constructor
    · rw [show k + 1 - a = (k + 1 - (a + 1)) + 1 from by omega, List.getElem?_cons_succ]
      exact h1
    · intro i hi hlen
      obtain ⟨j, rfl⟩ : ∃ j, i = j + 1 := ⟨i - 1, by omega⟩
      rw [List.getElem?_cons_succ]
      have hlen' : j < t.length := by
        simpa using Nat.lt_of_succ_lt_succ (by simpa using hlen)
      rw [h2 j (by omega) hlen']
      congr 2
      omega

theorem loop_single_honor (dr : Bool) (input : HttpRequestInput)
    (env : Nat → AttemptResult) (reqBody : Option (List Nat))
    (k : Nat) (r : Response) (od : OData)
    (henv : env k = .ok r od)
    (hnext : k + 1 < requestAttemptsForRateLimiting) :
    ∀ (n a : Nat) (b : Int) (m : Nat) (resp : Option Response) (o : Option OData) (status : Nat),
      a + n = requestAttemptsForRateLimiting →
      (performRequestLoop dr input env reqBody n a b m resp o status).honoredAttempts = [k] →
      (performRequestLoop dr input env reqBody n a b m
          resp o status).sleeps[k + 1 - max a 1]? = some (retryAfterNanos r) ∧
      ∀ i, k + 1 - max a 1 < i →
        i < (performRequestLoop dr input env reqBody n a b m resp o status).sleeps.length →
        (performRequestLoop dr input env reqBody n a b m resp o status).sleeps[i]? =
          some (cappedExpBackoff (i - (k + 1 - max a 1))) := by
  intro n
  induction n with
  | zero =>
      intro a b m resp o status _ha hhon
      simp [performRequestLoop] at hhon
  | succ n ih =>
      intro a b m resp o status ha hhon
      rcases henva : env a with msg | ⟨od2, msg⟩ | ⟨r2, od2⟩
      · rw [loop_step_transport henva] at hhon
        simp at hhon
      · rw [loop_step_decode henva] at hhon
        simp at hhon
      · by_cases hc : (!dr && consistencyJudges input r2 od2
            && decide (a < requestAttemptsForConsistency)) = true
        · rw [loop_step_consistency henva hc] at hhon ⊢
          simp only at hhon ⊢
          have hak : a + 1 ≤ k := by
            have hmem : k ∈ (performRequestLoop dr input env reqBody n (a + 1)
                (cappedExpBackoff (m + 1)) (m + 1) (some r2) (some od2)
                status).honoredAttempts := by
              rw [hhon]
              exact List.mem_cons_self _ _
            exact (loop_retry_attempts_lb dr input env reqBody n (a + 1)
              (cappedExpBackoff (m + 1)) (m + 1) (some r2) (some od2) status).2 k hmem
          have IH := ih (a + 1) (cappedExpBackoff (m + 1)) (m + 1) (some r2) (some od2) status
            (by omega) hhon
          rw [max_eq_left (by omega : 1 ≤ a + 1)] at IH
          exact single_honor_shift_aux _ hak IH.1 IH.2
        · have hc' : (!dr && consistencyJudges input r2 od2
              && decide (a < requestAttemptsForConsistency)) = false := by
            revert hc
            cases (!dr && consistencyJudges input r2 od2
              && decide (a < requestAttemptsForConsistency)) <;> simp
          by_cases hv : containsStatusCode input.validStatusCodes r2.statusCode = true
          · rw [loop_step_validCode henva hc' hv] at hhon
            simp at hhon
          · have hv' : containsStatusCode input.validStatusCodes r2.statusCode = false := by
              revert hv
              cases containsStatusCode input.validStatusCodes r2.statusCode <;> simp
            by_cases hf : validStatusAccepts input r2 od2 = true
            · rw [loop_step_validFunc henva hc' hv' hf] at hhon
              simp at hhon
            · have hf' : validStatusAccepts input r2 od2 = false := by
                revert hf
                cases validStatusAccepts input r2 od2 <;> simp
              by_cases hrl : containsStatusCode rateLimitingStatuses r2.statusCode = true
              · by_cases hhonb : honorsRetryAfter r2 = true
                · rw [loop_step_rateLimit_honored henva hc' hv' hf' hrl hhonb] at hhon ⊢
                  simp only at hhon ⊢
                  simp only [List.cons.injEq] at hhon
                  obtain ⟨hak, ht⟩ := hhon
                  subst hak
                  rw [henv] at henva
                  injection henva with hr hod
                  subst hr
                  subst hod
                  have hn1 : 1 ≤ n := by omega
                  obtain ⟨n2, rfl⟩ : ∃ n2, n = n2 + 1 := ⟨n - 1, by omega⟩
                  have hhead : (performRequestLoop dr input env reqBody (n2 + 1) (a + 1)
                      (retryAfterNanos r) 0 (some r) (some od)
                      r.statusCode).sleeps[0]? = some (retryAfterNanos r) :=
                    loop_sleeps_head (by omega)
                  have hrest := loop_sleeps_of_no_honor dr input env reqBody (n2 + 1) (a + 1)
                    (retryAfterNanos r) 0 (some r) (some od) r.statusCode ht
                  by_cases hk0 : a = 0
                  · subst hk0
                    have hmax : max 0 1 = 1 := max_eq_right (by omega)
                    simp only [hmax, gt_iff_lt, Nat.lt_irrefl, if_false, List.nil_append]
                    constructor
                    · simpa using hhead
                    · intro i hi hlen
                      rw [hrest i hlen]
                      rw [if_neg (by omega : ¬ (0 + 1 = 0)), if_neg (by omega : ¬ i = 0)]
                      congr 2
                      omega
                  · have hk1 : a > 0 := Nat.pos_of_ne_zero hk0
                    rw [max_eq_left (by omega : 1 ≤ a), if_pos hk1, List.singleton_append]
                    constructor
                    · rw [show a + 1 - a = 0 + 1 from by omega, List.getElem?_cons_succ]
                      exact hhead
                    · intro i hi hlen
                      obtain ⟨j, rfl⟩ : ∃ j, i = j + 1 := ⟨i - 1, by omega⟩
                      rw [List.getElem?_cons_succ]
                      have hlen' : j < (performRequestLoop dr input env reqBody (n2 + 1)
                          (a + 1) (retryAfterNanos r) 0 (some r) (some od)
                          r.statusCode).sleeps.length := by
                        simpa using Nat.lt_of_succ_lt_succ (by simpa using hlen)
                      rw [hrest j hlen']
                      rw [if_neg (by omega : ¬ (a + 1 = 0)), if_neg (by omega : ¬ j = 0)]
                      congr 2
                      omega
                · have hhonb' : honorsRetryAfter r2 = false := by
                    revert hhonb
                    cases honorsRetryAfter r2 <;> simp
                  rw [loop_step_rateLimit_plain henva hc' hv' hf' hrl hhonb'] at hhon ⊢
                  simp only at hhon ⊢
                  have hak : a + 1 ≤ k := by
                    have hmem : k ∈ (performRequestLoop dr input env reqBody n (a + 1)
                        (cappedExpBackoff (m + 1)) (m + 1) (some r2) (some od2)
                        r2.statusCode).honoredAttempts := by
                      rw [hhon]
                      exact List.mem_cons_self _ _
                    exact (loop_retry_attempts_lb dr input env reqBody n (a + 1)
                      (cappedExpBackoff (m + 1)) (m + 1) (some r2) (some od2)
                      r2.statusCode).2 k hmem
                  have IH := ih (a + 1) (cappedExpBackoff (m + 1)) (m + 1) (some r2) (some od2)
                    r2.statusCode (by omega) hhon
                  rw [max_eq_left (by omega : 1 ≤ a + 1)] at IH
                  exact single_honor_shift_aux _ hak IH.1 IH.2
              · have hrl' : containsStatusCode rateLimitingStatuses r2.statusCode = false := by
                  revert hrl
                  cases containsStatusCode rateLimitingStatuses r2.statusCode <;> simp
                rw [loop_step_terminal henva hc' hv' hf' hrl'] at hhon
                simp at hhon

/-- C4: when an attempt of `performRequest` — at any attempt index k —
ends in the rate-limiting branch with its `Retry-After: 2` header
honored, the delay slept before the next attempt (the run's k-th sleep)
is exactly 2 seconds, overriding the exponential backoff value that
would otherwise apply there; the multiplier is reset to 0, so when that
is the run's only honored attempt, the subsequent sleeps restart the
exponential progression from its beginning: 2s, 4s, 8s, ... capped at
64s. -/
theorem performRequest_C4_retryAfter (dr : Bool) (input : HttpRequestInput)
    (auth : Option (Except String Unit)) (env : Nat → AttemptResult)
    (reqBody : Option (List Nat)) (k : Nat) (r : Response) (od : OData)
    (hauth : authFails auth = false)
    (henv : env k = .ok r od)
    (hra : r.retryAfter = .parsed 2)
    (hnext : k + 1 < requestAttemptsForRateLimiting)
    (hhonored : (performRequest dr input auth env reqBody).honoredAttempts = [k]) :
    (performRequest dr input auth env reqBody).sleeps[k]? = some 2000000000 ∧
    ∀ i, k < i → i < (performRequest dr input auth env reqBody).sleeps.length →
      (performRequest dr input auth env reqBody).sleeps[i]? =
        some (cappedExpBackoff (i - k)) := by
  have hnanos : retryAfterNanos r = 2000000000 := by
    simp only [retryAfterNanos, hra]
    rw [show ((2 : ℚ) * 1000000000) = 2000000000 by norm_num]
    decide
  rw [performRequest_eq_loop hauth] at hhonored ⊢
  have H := loop_single_honor dr input env reqBody k r od henv hnext
    requestAttemptsForRateLimiting 0 0 0 none none 0 rfl hhonored
  rw [hnanos] at H
  have hidx : k + 1 - max 0 1 = k := by
    rw [max_eq_right (by omega : (0 : Nat) ≤ 1)]
    omega
  rw [hidx] at H
  exact H

/-- A 429 response carrying `Retry-After: 2`. -/
def retryAfter2Resp : Response :=
  { statusCode := 429, retryAfter := .parsed 2, contentType := "application/json",
    body := .blob "throttled" }

/-- Attempt 0 is rate limited with `Retry-After: 2`; later attempts are
plain 429s. -/
def retryAfter2Env : Nat → AttemptResult := fun k =>
  if k = 0 then .ok retryAfter2Resp odEmpty else .ok resp429 odEmpty

/-- A run whose attempt 1 — and only it — carries `Retry-After: 2`; all
other attempts are plain 429s with no header. -/
def retryAfterAt1Env : Nat → AttemptResult := fun k =>
  if k = 1 then .ok retryAfter2Resp odEmpty else .ok resp429 odEmpty

/-- C4 witness: with the honor at attempt index 1, the sleep before
attempt 2 is exactly 2s where the unoverridden exponential value would
have been `cappedExpBackoff 2` = 4s (third conjunct), and the following
sleep restarts the progression at `cappedExpBackoff 1` = 2s. -/
theorem performRequest_C4_witness :
    (performRequest false plainInput none retryAfterAt1Env none).sleeps[1]? =
      some 2000000000 ∧
    (performRequest false plainInput none retryAfterAt1Env none).sleeps[2]? =
      some (cappedExpBackoff 1) ∧
    (2000000000 : Int) ≠ cappedExpBackoff 2 :=
  ⟨(performRequest_C4_retryAfter false plainInput none retryAfterAt1Env none 1
      retryAfter2Resp odEmpty (by decide) (by decide) (by decide) (by decide)
      (by decide)).1,
   (performRequest_C4_retryAfter false plainInput none retryAfterAt1Env none 1
      retryAfter2Resp odEmpty (by decide) (by decide) (by decide) (by decide)
      (by decide)).2 2 (by decide) (by decide),
   by decide⟩

theorem loop_honored_iff (dr : Bool) (input : HttpRequestInput)
    (env : Nat → AttemptResult) (reqBody : Option (List Nat)) :
    ∀ (n a : Nat) (b : Int) (m : Nat) (resp : Option Response) (o : Option OData) (status : Nat)
      (k : Nat),
      k ∈ (performRequestLoop dr input env reqBody n a b m resp o status).honoredAttempts ↔
        (k ∈ (performRequestLoop dr input env reqBody n a b m
            resp o status).rateLimitRetryAttempts ∧
          attemptHonorable (env k) = true) := by
  intro n
  induction n with
  | zero =>
      intro a b m resp o status k
      simp [performRequestLoop]
  | succ n ih =>
      intro a b m resp o status k
      rcases henv : env a with msg | ⟨od, msg⟩ | ⟨r, od⟩
      · rw [loop_step_transport henv]
        simp
      · rw [loop_step_decode henv]
        simp
      · by_cases hc : (!dr && consistencyJudges input r od
            && decide (a < requestAttemptsForConsistency)) = true
        · rw [loop_step_consistency henv hc]
          simp only
          exact ih (a + 1) (cappedExpBackoff (m + 1)) (m + 1) (some r) (some od) status k
        · have hc' : (!dr && consistencyJudges input r od
              && decide (a < requestAttemptsForConsistency)) = false := by
            revert hc
            cases (!dr && consistencyJudges input r od
              && decide (a < requestAttemptsForConsistency)) <;> simp
          by_cases hv : containsStatusCode input.validStatusCodes r.statusCode = true
          · rw [loop_step_validCode henv hc' hv]
            simp
          · have hv' : containsStatusCode input.validStatusCodes r.statusCode = false := by
              revert hv
              cases containsStatusCode input.validStatusCodes r.statusCode <;> simp
            by_cases hf : validStatusAccepts input r od = true
            · rw [loop_step_validFunc henv hc' hv' hf]
              simp
            · have hf' : validStatusAccepts input r od = false := by
                revert hf
                cases validStatusAccepts input r od <;> simp
              by_cases hrl : containsStatusCode rateLimitingStatuses r.statusCode = true
              · by_cases hhon : honorsRetryAfter r = true
                · rw [loop_step_rateLimit_honored henv hc' hv' hf' hrl hhon]
                  simp only
                  by_cases hk : k = a
                  · subst hk
                    rw [henv]
                    simp [attemptHonorable, hhon]
                  · simp only [List.mem_cons]
                    have hne : ¬ (k = a) := hk
                    constructor
                    · intro hmem
                      rcases hmem with h1 | h2
                      · exact absurd h1 hne
                      · have := (ih (a + 1) (retryAfterNanos r) 0 (some r) (some od)
                          r.statusCode k).mp h2
                        exact ⟨Or.inr this.1, this.2⟩
                    · intro hmem
                      rcases hmem.1 with h1 | h2
                      · exact absurd h1 hne
                      · exact Or.inr ((ih (a + 1) (retryAfterNanos r) 0 (some r) (some od)
                          r.statusCode k).mpr ⟨h2, hmem.2⟩)
                · have hhon' : honorsRetryAfter r = false := by
                    revert hhon
                    cases honorsRetryAfter r <;> simp
                  rw [loop_step_rateLimit_plain henv hc' hv' hf' hrl hhon']
                  simp only
                  by_cases hk : k = a
                  · subst hk
                    constructor
                    · intro hmem
                      have := (loop_retry_attempts_lb dr input env reqBody n (k + 1)
                        (cappedExpBackoff (m + 1)) (m + 1) (some r) (some od)
                        r.statusCode).2 k hmem
                      omega
                    · intro hmem
                      rw [henv] at hmem
                      simp [attemptHonorable, hhon'] at hmem
                  · simp only [List.mem_cons]
                    have hne : ¬ (k = a) := hk
                    constructor
                    · intro hmem
                      have := (ih (a + 1) (cappedExpBackoff (m + 1)) (m + 1) (some r) (some od)
                        r.statusCode k).mp hmem
                      exact ⟨Or.inr this.1, this.2⟩
                    · intro hmem
                      rcases hmem.1 with h1 | h2
                      · exact absurd h1 hne
                      · exact (ih (a + 1) (cappedExpBackoff (m + 1)) (m + 1) (some r) (some od)
                          r.statusCode k).mpr ⟨h2, hmem.2⟩
              · have hrl' : containsStatusCode rateLimitingStatuses r.statusCode = false := by
                  revert hrl
                  cases containsStatusCode rateLimitingStatuses r.statusCode <;> simp
                rw [loop_step_terminal henv hc' hv' hf' hrl']
                simp

/-- C9: during a run of `performRequest`, a `Retry-After` header is
honored exactly at those rate-limiting retries whose response carries a
header value that parses as a float strictly greater than zero; when no
header is honored (missing, non-numeric, zero or negative values
included), the previously computed exponential backoff stays in effect
and the progression is never reset, so every sleep equals
min(1s * 2^(k), 64s) for the k-th retry. -/
theorem performRequest_C9_honor_condition (dr : Bool) (input : HttpRequestInput)
    (auth : Option (Except String Unit)) (env : Nat → AttemptResult)
    (reqBody : Option (List Nat)) :
    (∀ k, k ∈ (performRequest dr input auth env reqBody).honoredAttempts ↔
      (k ∈ (performRequest dr input auth env reqBody).rateLimitRetryAttempts ∧
        attemptHonorable (env k) = true)) ∧
    ((performRequest dr input auth env reqBody).honoredAttempts = [] →
      ∀ i, i < (performRequest dr input auth env reqBody).sleeps.length →
        (performRequest dr input auth env reqBody).sleeps[i]? =
          some (cappedExpBackoff (i + 1))) := by
  by_cases hauth : authFails auth = true
  · rcases auth with _ | y
    · simp [authFails] at hauth
    · rcases y with e | u
      · rw [performRequest_authFailure]
        constructor
        · intro k
          simp
        · intro _h i hi
          simp at hi
      · simp [authFails] at hauth
  · have hauth' : authFails auth = false := by
      revert hauth
      cases authFails auth <;> simp
    rw [performRequest_eq_loop hauth']
    constructor
    · intro k
      exact loop_honored_iff dr input env reqBody
        requestAttemptsForRateLimiting 0 0 0 none none 0 k
    · intro h i hi
      have := loop_sleeps_of_no_honor dr input env reqBody
        requestAttemptsForRateLimiting 0 0 0 none none 0 h i hi
      rw [this, if_pos rfl]
      have harith : 0 + 1 + i = i + 1 := by omega
      rw [harith]

/-- C9 witness: attempt 0 of the Retry-After-2 run is honored (positive
numeric header at a rate-limiting retry), attempt 1 is not (no header). -/
theorem performRequest_C9_witness :
    0 ∈ (performRequest false plainInput none retryAfter2Env none).honoredAttempts ∧
    1 ∉ (performRequest false plainInput none retryAfter2Env none).honoredAttempts :=
  ⟨((performRequest_C9_honor_condition false plainInput none retryAfter2Env none).1 0).mpr
      ⟨by decide, by decide⟩,
   fun h => absurd (((performRequest_C9_honor_condition false plainInput none retryAfter2Env
      none).1 1).mp h).2 (by decide)⟩

/-- ASCII model of the per-rune lowering performed by `strings.ToLower`
(the content types the client compares are ASCII). -/
def asciiToLower (ch : Char) : Char :=
  if 65 ≤ ch.toNat ∧ ch.toNat ≤ 90 then Char.ofNat (ch.toNat + 32) else ch

/-- `strings.HasPrefix`, over rune lists: first argument the sought
prefix, second the string searched. -/
def charsStartWith : List Char → List Char → Bool
  | [], _ => true
  | _ :: _, [] => false
  | p :: ps, x :: xs => p == x && charsStartWith ps xs

/-- The pagination gate of `Get`:
`strings.HasPrefix(strings.ToLower(resp.Header.Get("Content-Type")), "application/json")`. -/
def isJsonContentType (ct : String) : Bool :=
  charsStartWith "application/json".toList (ct.toList.map asciiToLower)

/-- Outcome of the `performRequest` call `Get` makes for a URL: on a
non-nil error the source receives a nil response together with the
status/envelope, otherwise the response, status and envelope. -/
inductive ExecOutcome where
  | failure (status : Nat) (o : Option OData) (msg : String) : ExecOutcome
  | success (resp : Response) (status : Nat) (o : Option OData) : ExecOutcome
deriving Repr, DecidableEq

/-- The errors `Get` can return beyond those of `performRequest`. -/
inductive GetError where
  | request (msg : String) : GetError
  | unmarshalFailure : GetError
  | nilResponse : GetError
  | pageLimit : GetError
deriving Repr, DecidableEq

/-- `json.Unmarshal` of body bytes into an envelope: `blob` bytes fail,
`envelope` bytes decode to the carried envelope. -/
def unmarshalOData : BodyBytes → Option OData
  | .blob _ => none
  | .envelope o => some o

/-- `json.Marshal` of an envelope. -/
def marshalOData (o : OData) : BodyBytes := .envelope o

/-- Result of a `Get` call: the returned tuple, plus the list of URLs
requested, in order. -/
structure GetResult where
  resp : Option Response
  status : Nat
  o : Option OData
  error : Option GetError
  fetched : List String
deriving Repr, DecidableEq

/-- `Get`: perform the request for `url` (on recursive pagination calls
this is the raw next-link URL); if the response's content type is JSON,
buffer and decode the body, and unless paging is disabled or there is no
next-link or no result array, fetch the next page recursively with the
same input, concatenate the current page's results in front of the
recursive results, and re-marshal the merged envelope (which carries the
final page's other fields) as the returned body.  The short declaration
receiving the recursive call shadows `status` and `o` inside the JSON
block, so the error returns within the block carry the recursive call's
status/envelope while the final success return, outside the block,
carries the current (first) page's status and envelope alongside the
merged body.  `exec` abstracts the
`performRequest` call, modelled separately above.  `fuel` bounds the
recursion depth, unbounded in the source; `.pageLimit` marks fuel
exhaustion and theorems supply sufficient fuel.  `.nilResponse` marks the
nil-response dereference the source would perform if `performRequest`
returned a nil response with a nil error. -/
def Get (exec : String → ExecOutcome) (disablePaging : Bool) : Nat → String → GetResult
  | 0, _url =>
      { resp := none, status := 0, o := none, error := some .pageLimit, fetched := [] }
  | fuel + 1, url =>
      match exec url with
      | .failure status o msg =>
          { resp := none, status := status, o := o, error := some (.request msg),
            fetched := [url] }
      | .success resp status o =>
          if isJsonContentType resp.contentType then
            match unmarshalOData resp.body with
            | none =>
                { resp := none, status := status, o := o, error := some .unmarshalFailure,
                  fetched := [url] }
            | some firstOdata =>
                match firstOdata.nextLink, firstOdata.value, disablePaging with
                | some nextLink, some firstValue, false =>
                    let r := Get exec disablePaging fuel nextLink
                    (match r.error with
                     | some e =>
                        { resp := some resp, status := r.status, o := r.o, error := some e,
                          fetched := url :: r.fetched }
                     | none =>
                        match r.resp with
                        | none =>
                            { resp := some resp, status := r.status, o := r.o,
                              error := some .nilResponse, fetched := url :: r.fetched }
                        | some nextResp =>
                            match unmarshalOData nextResp.body with
                            | none =>
                                { resp := some resp, status := r.status, o := r.o,
                                  error := some .unmarshalFailure,
                                  fetched := url :: r.fetched }
                            | some nextOdata =>
                                let merged :=
                                  match nextOdata.value with
                                  | some nextValue =>
                                      { nextOdata with value := some (firstValue ++ nextValue) }
                                  | none => nextOdata
                                { resp := some { resp with body := marshalOData merged },
                                  status := status, o := o, error := none,
                                  fetched := url :: r.fetched })
                | _, _, _ =>
                    { resp := some resp, status := status, o := o, error := none,
                      fetched := [url] }
          else
            { resp := some resp, status := status, o := o, error := none, fetched := [url] }

/-- C10: for a successful GET whose response content type does not begin
with "application/json" case-insensitively, `Get` returns the executor's
response, status and envelope unchanged: no pagination, no merging, no
further fetches, whatever the paging flag and whatever the body. -/
theorem Get_C10_nonJson (exec : String → ExecOutcome) (disablePaging : Bool) (fuel : Nat)
    (url : String) (resp : Response) (status : Nat) (o : Option OData)
    (hexec : exec url = .success resp status o)
    (hct : isJsonContentType resp.contentType = false) :
    Get exec disablePaging (fuel + 1) url =
      { resp := some resp, status := status, o := o, error := none, fetched := [url] } := by
  simp [Get, hexec, hct]

/-- The envelope of a single page with a next-link and one result. -/
def linkedPageOData : OData := ⟨some "u1", some ["x"], none⟩

/-- A 200 response, body the linked-page envelope, content type plain text. -/
def textPageResp : Response := ⟨200, .absent, "text/plain", .envelope linkedPageOData⟩

/-- A 200 response, body the linked-page envelope, content type JSON. -/
def jsonPageResp : Response := ⟨200, .absent, "application/json", .envelope linkedPageOData⟩

/-- C10 witness: a plain-text success is passed through untouched even
with a next-link in the body and paging enabled. -/
theorem Get_C10_witness :
    Get (fun _ => .success textPageResp 200 (some odEmpty)) false 5 "u0" =
      { resp := some textPageResp, status := 200, o := some odEmpty, error := none,
        fetched := ["u0"] } :=
  Get_C10_nonJson _ false 4 "u0" _ 200 (some odEmpty) rfl (by decide)

/-- C7: with `DisablePaging` set, a successful JSON response that carries
a next-link is returned with the first page's body bytes unmodified and
the status and envelope unchanged; no recursive fetch and no merging
happen. -/
theorem Get_C7_disablePaging (exec : String → ExecOutcome) (fuel : Nat)
    (url : String) (resp : Response) (status : Nat) (o : Option OData) (od : OData)
    (hexec : exec url = .success resp status o)
    (hct : isJsonContentType resp.contentType = true)
    (hbody : resp.body = .envelope od)
    (hnext : od.nextLink.isSome = true) :
    Get exec true (fuel + 1) url =
      { resp := some resp, status := status, o := o, error := none, fetched := [url] } := by
  obtain ⟨l, hl⟩ := Option.isSome_iff_exists.mp hnext
  rcases hv : od.value with _ | v <;>
    simp [Get, hexec, hct, hbody, unmarshalOData, hl, hv]

/-- C7 witness: a JSON page with a next-link, fetched with paging
disabled, comes back byte-identical with a single fetch. -/
theorem Get_C7_witness :
    Get (fun _ => .success jsonPageResp 200 (some odEmpty)) true 5 "u0" =
      { resp := some jsonPageResp, status := 200, o := some odEmpty, error := none,
        fetched := ["u0"] } :=
  Get_C7_disablePaging _ 4 "u0" _ 200 (some odEmpty) linkedPageOData
    rfl (by decide) rfl (by decide)

/-- A 200 JSON response whose body is the serialized envelope `o`. -/
def pageResponse (o : OData) : Response :=
  ⟨200, .absent, "application/json", .envelope o⟩

/-- Executor serving three pages: `u1` and `u2` address the second and
third pages, every other URL the first page. -/
def threePageExec (u1 u2 : String) (p1 p2 p3 : OData) : String → ExecOutcome := fun u =>
  if u = u2 then .success (pageResponse p3) 200 (some p3)
  else if u = u1 then .success (pageResponse p2) 200 (some p2)
  else .success (pageResponse p1) 200 (some p1)

/-- C5: a GET over three server-linked JSON pages with result arrays
[a,b], [c], [d,e] returns a single response whose body is the merged
envelope with result array exactly [a,b,c,d,e] in page-arrival order,
carrying the last page's non-result fields — hence no next-link — after
fetching exactly the three pages in order.  The decoded-envelope and
status components of the returned tuple are the first page's: the
source's success return lies outside the block in which the recursive
call shadows them. -/
theorem Get_C5_merges (f : Nat) (u0 u1 u2 : String) (a b c d e : String)
    (m1 m2 m3 : Option String)
    (h01 : u0 ≠ u1) (h02 : u0 ≠ u2) (h12 : u1 ≠ u2) :
    Get (threePageExec u1 u2 ⟨some u1, some [a, b], m1⟩ ⟨some u2, some [c], m2⟩
        ⟨none, some [d, e], m3⟩) false (f + 3) u0 =
      { resp := some ⟨200, .absent, "application/json",
          .envelope ⟨none, some [a, b, c, d, e], m3⟩⟩,
        status := 200, o := some ⟨some u1, some [a, b], m1⟩, error := none,
        fetched := [u0, u1, u2] } := by
  have hjson : isJsonContentType "application/json" = true := by decide
  have h2 : Get (threePageExec u1 u2 ⟨some u1, some [a, b], m1⟩ ⟨some u2, some [c], m2⟩
      ⟨none, some [d, e], m3⟩) false (f + 1) u2 =
      { resp := some (pageResponse ⟨none, some [d, e], m3⟩), status := 200,
        o := some ⟨none, some [d, e], m3⟩, error := none, fetched := [u2] } := by
    simp [Get, threePageExec, pageResponse, unmarshalOData, hjson]
  have h1 : Get (threePageExec u1 u2 ⟨some u1, some [a, b], m1⟩ ⟨some u2, some [c], m2⟩
      ⟨none, some [d, e], m3⟩) false (f + 2) u1 =
      { resp := some ⟨200, .absent, "application/json",
          .envelope ⟨none, some [c, d, e], m3⟩⟩,
        status := 200, o := some ⟨some u2, some [c], m2⟩, error := none,
        fetched := [u1, u2] } := by
    rw [show f + 2 = (f + 1) + 1 from rfl, Get, threePageExec]
    rw [if_neg h12, if_pos rfl]
    simp [pageResponse, unmarshalOData, marshalOData, hjson, h2]
  rw [show f + 3 = (f + 2) + 1 from rfl, Get, threePageExec]
  rw [if_neg h02, if_neg h01]
  simp [pageResponse, unmarshalOData, marshalOData, hjson, h1]

/-- C5 witness: the merge theorem applied at concrete pages and URLs. -/
theorem Get_C5_witness :
    Get (threePageExec "u1" "u2" ⟨some "u1", some ["a", "b"], none⟩
        ⟨some "u2", some ["c"], none⟩ ⟨none, some ["d", "e"], none⟩) false 3 "u0" =
      { resp := some ⟨200, .absent, "application/json",
          .envelope ⟨none, some ["a", "b", "c", "d", "e"], none⟩⟩,
        status := 200, o := some ⟨some "u1", some ["a", "b"], none⟩, error := none,
        fetched := ["u0", "u1", "u2"] } :=
  Get_C5_merges 0 "u0" "u1" "u2" "a" "b" "c" "d" "e" none none none
    (by decide) (by decide) (by decide)

/-- The components of a parsed `net/url.URL` that `buildUri` reads or
writes; a valid base endpoint is one `url.Parse` accepts, yielding this
shape (`url.String()` renders scheme://host + escaped path + "?" +
rawQuery when the raw query is non-empty). -/
structure GoURL where
  scheme : String
  host : String
  path : String
  rawQuery : String
deriving Repr, DecidableEq

/-- The `Uri` type from the source: relative entity path, optional query
parameters (`url.Values`, a map from key to value list, modelled as an
association list with distinct keys), and the tenant flag. -/
structure Uri where
  entity : String
  params : Option (List (String × List String))
  hasTenantId : Bool

/-- `strings.TrimLeft(s, "/")`: drop every leading slash. -/
def trimLeftSlashes (s : String) : String :=
  String.mk (s.toList.dropWhile (fun ch => ch == '/'))

/-- Uppercase hexadecimal digit. -/
def upperHexDigit (n : Nat) : Char :=
  (['0', '1', '2', '3', '4', '5', '6', '7', '8', '9',
    'A', 'B', 'C', 'D', 'E', 'F']).getD n '0'

/-- Whether `net/url` escapes a character in a query component:
everything but alphanumerics and `-._~` (the space is handled separately,
becoming `+`). -/
def shouldEscapeQueryChar (ch : Char) : Bool :=
  !(ch.isAlphanum || ch == '-' || ch == '_' || ch == '.' || ch == '~')

/-- `url.QueryEscape` of one character (ASCII model: Go escapes each
UTF-8 byte; the characters in scope are single bytes). -/
def queryEscapeChar (ch : Char) : String :=
  if ch == ' ' then "+"
  else if shouldEscapeQueryChar ch then
    String.mk ['%', upperHexDigit (ch.toNat / 16 % 16), upperHexDigit (ch.toNat % 16)]
  else String.mk [ch]

/-- `url.QueryEscape` (ASCII model). -/
def queryEscape (s : String) : String :=
  String.join (s.toList.map queryEscapeChar)

/-- Sorted insertion by key, the order `Values.Encode` iterates keys. -/
def insertPair (p : String × List String) :
    List (String × List String) → List (String × List String)
  | [] => [p]
  | q :: qs => if p.1 ≤ q.1 then p :: q :: qs else q :: insertPair p qs

/-- The parameter map with keys in sorted order. -/
def sortedParams : List (String × List String) → List (String × List String)
  | [] => []
  | p :: ps => insertPair p (sortedParams ps)

/-- The `key=value` strings one key contributes to the encoding, one per
value. -/
def encodePair (k : String) (vs : List String) : List String :=
  vs.map (fun v => queryEscape k ++ "=" ++ queryEscape v)

/-- All encoded `key=value` strings, keys in sorted order. -/
def encodedPairs (ps : List (String × List String)) : List String :=
  (sortedParams ps).foldr (fun kv acc => encodePair kv.1 kv.2 ++ acc) []

/-- `&`-separated joining, as `Values.Encode` writes it. -/
def joinAmp : List String → String
  | [] => ""
  | [x] => x
  | x :: y :: ys => x ++ "&" ++ joinAmp (y :: ys)

/-- `url.Values.Encode`. -/
def valuesEncode (ps : List (String × List String)) : String :=
  joinAmp (encodedPairs ps)

/-- `buildUri`: parse the endpoint (done by the caller of this model),
overwrite its path with "/" + version, then "/" + tenant when the Uri
requests it, then "/" + the entity with leading slashes trimmed; when a
parameter map is present, set the raw query to its encoding (a nil map
leaves the endpoint's query untouched). -/
def buildUri (endpoint : GoURL) (apiVersion : String) (tenantId : String) (uri : Uri) : GoURL :=
  let p1 := "/" ++ apiVersion
  let p2 := if uri.hasTenantId then p1 ++ "/" ++ tenantId else p1
  let p3 := p2 ++ "/" ++ trimLeftSlashes uri.entity
  { endpoint with
      path := p3
      rawQuery :=
        match uri.params with
        | some ps => valuesEncode ps
        | none => endpoint.rawQuery }

theorem mem_insertPair (p x : String × List String) :
    ∀ l, x ∈ insertPair p l ↔ x = p ∨ x ∈ l := by
  intro l
  induction l with
  | nil => simp [insertPair]
  | cons q qs ih =>
      simp only [insertPair]
      split
      · simp [List.mem_cons]
      · simp only [List.mem_cons, ih]
        tauto

theorem mem_sortedParams (ps : List (String × List String)) (x : String × List String) :
    x ∈ sortedParams ps ↔ x ∈ ps := by
  induction ps with
  | nil => simp [sortedParams]
  | cons p l ih =>
      simp only [sortedParams, mem_insertPair, List.mem_cons, ih]

theorem encodePair_ne_empty {k : String} {vs : List String} {s : String}
    (hs : s ∈ encodePair k vs) : s ≠ "" := by
  obtain ⟨v, _hv, rfl⟩ := List.mem_map.mp hs
  intro h
  have hdata := congrArg String.data h
  simp [String.data_append, show ("=".data : List Char) = ['='] from by decide,
    show ("".data : List Char) = [] from by decide] at hdata

theorem foldr_encode_eq_nil_iff :
    ∀ l : List (String × List String),
      (l.foldr (fun kv acc => encodePair kv.1 kv.2 ++ acc) []) = [] ↔
        ∀ kv ∈ l, kv.2 = ([] : List String) := by
  intro l
  induction l with
  | nil => simp
  | cons kv l ih =>
      constructor
      · intro h
        rw [List.foldr_cons, List.append_eq_nil] at h
        have hkv : kv.2 = ([] : List String) := by
          simpa [encodePair] using h.1
        intro kv' hkv'
        rcases List.mem_cons.mp hkv' with rfl | hmem
        · exact hkv
        · exact (ih.mp h.2) kv' hmem
      · intro h
        rw [List.foldr_cons, List.append_eq_nil]
        refine ⟨by simp [encodePair, h kv (List.mem_cons_self kv l)], ?_⟩
        exact ih.mpr (fun kv' hk => h kv' (List.mem_cons.mpr (Or.inr hk)))

theorem mem_foldr_encode_ne_empty :
    ∀ (l : List (String × List String)) (s : String),
      s ∈ l.foldr (fun kv acc => encodePair kv.1 kv.2 ++ acc) [] → s ≠ "" := by
  intro l
  induction l with
  | nil =>
      intro s hs
      simp at hs
  | cons kv l ih =>
      intro s hs
      rcases List.mem_append.mp hs with h1 | h2
      · exact encodePair_ne_empty h1
      · exact ih s h2

theorem joinAmp_cons_ne (s : String) (hs : s ≠ "") :
    ∀ rest, joinAmp (s :: rest) ≠ ""
  | [] => by simpa [joinAmp] using hs
  | y :: ys => by
      simp only [joinAmp]
      intro h
      have hdata := congrArg String.data h
      simp [String.data_append, show ("&".data : List Char) = ['&'] from by decide,
        show ("".data : List Char) = [] from by decide] at hdata

theorem valuesEncode_ne_empty_iff (ps : List (String × List String)) :
    valuesEncode ps ≠ "" ↔ ∃ kv ∈ ps, kv.2 ≠ ([] : List String) := by
  constructor
  · intro h
    by_contra hall
    push_neg at hall
    have hnil : encodedPairs ps = [] := by
      rw [encodedPairs, foldr_encode_eq_nil_iff]
      intro kv hkv
      exact hall kv ((mem_sortedParams ps kv).mp hkv)
    rw [valuesEncode, hnil] at h
    exact h rfl
  · rintro ⟨kv, hkv, hne⟩ h
    rcases hl : encodedPairs ps with _ | ⟨s, rest⟩
    · have := (foldr_encode_eq_nil_iff (sortedParams ps)).mp hl kv
        ((mem_sortedParams ps kv).mpr hkv)
      exact hne this
    · have hsne : s ≠ "" := by
        apply mem_foldr_encode_ne_empty (sortedParams ps) s
        rw [show (sortedParams ps).foldr
          (fun kv acc => encodePair kv.1 kv.2 ++ acc) [] = encodedPairs ps from rfl, hl]
        exact List.mem_cons_self s rest
      rw [valuesEncode, hl] at h
      exact joinAmp_cons_ne s hsne rest h

/-- C8: for a valid base endpoint (one that parses, with no query of its
own), the URL `buildUri` produces has path
"/" + version [+ "/" + tenant when the Uri's HasTenantId flag is set]
+ "/" + the entity with every leading slash trimmed, and it carries a
(percent-encoded) query string exactly when query parameters — at least
one key with at least one value — were supplied. -/
theorem buildUri_C8 (endpoint : GoURL) (apiVersion tenantId : String) (u : Uri)
    (hq : endpoint.rawQuery = "") :
    (buildUri endpoint apiVersion tenantId u).path =
      "/" ++ apiVersion ++ (if u.hasTenantId then "/" ++ tenantId else "") ++ "/" ++
        trimLeftSlashes u.entity ∧
    ((buildUri endpoint apiVersion tenantId u).rawQuery ≠ "" ↔
      ∃ kv ∈ u.params.getD [], kv.2 ≠ ([] : List String)) := by
  constructor
  · simp only [buildUri]
    cases ht : u.hasTenantId
    · simp [String.append_assoc]
    · simp [String.append_assoc]
  · simp only [buildUri]
    rcases hp : u.params with _ | ps
    · simp [hq]
    · simpa using valuesEncode_ne_empty_iff ps

/-- C8 witness: the theorem applied at a concrete endpoint, version,
tenant and parametrized Uri. -/
theorem buildUri_C8_witness :
    (buildUri ⟨"https", "graph.microsoft.com", "", ""⟩ "v1.0" "tid"
        ⟨"//users", some [("k", ["v"])], true⟩).path =
      "/" ++ "v1.0" ++ (if true then "/" ++ "tid" else "") ++ "/" ++
        trimLeftSlashes "//users" ∧
    ((buildUri ⟨"https", "graph.microsoft.com", "", ""⟩ "v1.0" "tid"
        ⟨"//users", some [("k", ["v"])], true⟩).rawQuery ≠ "" ↔
      ∃ kv ∈ (some [("k", ["v"])] : Option (List (String × List String))).getD [],
        kv.2 ≠ ([] : List String)) :=
  buildUri_C8 ⟨"https", "graph.microsoft.com", "", ""⟩ "v1.0" "tid"
    ⟨"//users", some [("k", ["v"])], true⟩ rfl
